import Mathlib

/-!
# Snake game (src/main.go): shallow embedding and verified properties

The Go program keeps one mutable `Game` value.  Every method `func (g *Game) f()`
is embedded as a function from the state before the call to the state after it.

Modelling conventions

* Go `int` and `time.Duration` are embedded as `Int`.  Coordinates are compared
  against the terminal size and the counters change by one unit per tick, so no
  operation of the program comes near the machine limits.
* `g.Screen.Size()` is an observation of the terminal: it is the pair `(W, H)`
  passed to every function that reads it.
* `rand.Intn` is embedded by `Intn`, which receives the raw draw from the
  environment (`rx` for the X coordinate, `ry` for the Y coordinate).
* A Go run-time panic is the `error` branch of `Except Panic`.
-/

namespace SnakeGame

/-- Run-time panics the embedded functions can raise. -/
inductive Panic where
  /-- An index or slice expression out of range (`Body[0]` on an empty body). -/
  | indexOutOfRange
  /-- The panic of `rand.Intn(n)` for `n <= 0`. -/
  | invalidArgument
  deriving DecidableEq, Repr

/-- Direction of movement: `type Direction int` in the source. -/
abbrev Direction := Int

/-- Constant `Up` (iota = 0). -/
def Up : Direction := 0
/-- Constant `Down` (iota = 1). -/
def Down : Direction := 1
/-- Constant `Left` (iota = 2). -/
def Left : Direction := 2
/-- Constant `Right` (iota = 3). -/
def Right : Direction := 3

/-- A 2D coordinate: `type Point struct { X, Y int }`. -/
structure Point where
  X : Int
  Y : Int
  deriving DecidableEq, Repr

/-- The snake: body segments, head first, and the current direction. -/
structure Snake where
  Body : List Point
  Direction : Direction
  deriving DecidableEq, Repr

/-- The game state: the fields of `type Game struct` other than `Screen`,
which is the environment. -/
structure Game where
  Snake : Snake
  Food : Point
  Score : Int
  Speed : Int
  GameOver : Bool
  deriving DecidableEq, Repr

/-- Constant `time.Millisecond`, in nanoseconds, the unit of `time.Duration`. -/
def Millisecond : Int := 1000000

/-- Function `rand.Intn(n)` of the Go standard library: panics when `n <= 0`,
otherwise returns a value of `[0, n)`.  The value is fixed by the raw draw `r`;
every value of `[0, n)` is the result for some `r`. -/
def Intn (n : Int) (r : Nat) : Except Panic Int :=
  if n ≤ 0 then .error .invalidArgument else .ok ((r : Int) % n)

/-- Method `Game.spawnFood` (main.go 55-61). -/
def spawnFood (W H : Int) (rx ry : Nat) (g : Game) : Except Panic Game :=
  match Intn W rx with
  | .error e => .error e
  | .ok x =>
    match Intn H ry with
    | .error e => .error e
    | .ok y => .ok { g with Food := { X := x, Y := y } }

/-- Method `Game.initialize` (main.go 43-53). -/
def initializeGame (W H : Int) (rx ry : Nat) (g : Game) : Except Panic Game :=
  let g1 : Game :=
    { g with Snake := { Body := [⟨5, 5⟩, ⟨5, 6⟩, ⟨5, 7⟩], Direction := Right } }
  match spawnFood W H rx ry g1 with
  | .error e => .error e
  | .ok g2 =>
    let g3 : Game := { g2 with Score := 0 }
    let g4 : Game := { g3 with Speed := 100 * Millisecond }
    .ok { g4 with GameOver := false }

/-- The `switch g.Snake.Direction` of `move` (main.go 120-130): `newHead` starts
as the zero `Point` and is assigned in the four cases. -/
def newHead (d : Direction) (head : Point) : Point :=
  if d = Up then { X := head.X, Y := head.Y - 1 }
  else if d = Down then { X := head.X, Y := head.Y + 1 }
  else if d = Left then { X := head.X - 1, Y := head.Y }
  else if d = Right then { X := head.X + 1, Y := head.Y }
  else { X := 0, Y := 0 }

/-- The wall test of `move` (main.go 134). -/
def outOfBounds (W H : Int) (p : Point) : Bool :=
  decide (p.X < 0) || decide (p.X ≥ W) || decide (p.Y < 0) || decide (p.Y ≥ H)

/-- The loop `for _, segment := range ...` of `move` (main.go 139-144): `true`
when the loop returns early because a segment equals `p`. -/
def hitsSegment (p : Point) : List Point → Bool
  | [] => false
  | segment :: rest =>
    if p.X = segment.X ∧ p.Y = segment.Y then true else hitsSegment p rest

/-- Method `Game.move` (main.go 113-157). -/
def move (W H : Int) (rx ry : Nat) (g : Game) : Except Panic Game :=
  if g.GameOver then .ok g
  else
    match g.Snake.Body with
    | [] => .error .indexOutOfRange
    | head :: rest =>
      let nh := newHead g.Snake.Direction head
      if outOfBounds W H nh then .ok { g with GameOver := true }
      else if hitsSegment nh rest then .ok { g with GameOver := true }
      else if nh.X = g.Food.X ∧ nh.Y = g.Food.Y then
        match spawnFood W H rx ry g with
        | .error e => .error e
        | .ok g1 =>
          let g2 : Game := { g1 with Score := g1.Score + 1 }
          let g3 : Game := { g2 with Speed := g2.Speed - 5 * Millisecond }
          .ok { g3 with Snake := { g3.Snake with Body := nh :: g3.Snake.Body } }
      else
        let g1 : Game :=
          { g with Snake := { g.Snake with Body := g.Snake.Body.dropLast } }
        .ok { g1 with Snake := { g1.Snake with Body := nh :: g1.Snake.Body } }

/-- Modelled from the spec: the key codes of the display backend (`tcell.Key`),
whose declaration is outside the repository.  The codes named in `handleEvents`
are distinct constants; every other code is `KeyOther`. -/
inductive Key where
  | KeyUp
  | KeyDown
  | KeyLeft
  | KeyRight
  | KeyCtrlC
  | KeyEsc
  | KeyRune
  | KeyOther (code : Nat)
  deriving DecidableEq, Repr

/-- Modelled from the spec: the value returned by `Screen.PollEvent()`, either a
key event (`*tcell.EventKey`, with its `Key()` and `Rune()`) or an event of
another type (resize, mouse, ...). -/
inductive Event where
  | EventKey (key : Key) (rune : Char)
  | EventOther
  deriving DecidableEq, Repr

/-- Ways in which `handleEvents` does not return to its caller. -/
inductive Halt where
  /-- The call `os.Exit(code)`. -/
  | exit (code : Int)
  /-- A run-time panic. -/
  | panic (p : Panic)
  deriving DecidableEq, Repr

/-- Method `Game.handleEvents` (main.go 86-110); `ev` is the event delivered by
`g.Screen.PollEvent()`. -/
def handleEvents (W H : Int) (rx ry : Nat) (ev : Event) (g : Game) : Except Halt Game :=
  match ev with
  | .EventKey key rune =>
    match key with
    | .KeyUp => .ok { g with Snake := { g.Snake with Direction := Up } }
    | .KeyDown => .ok { g with Snake := { g.Snake with Direction := Down } }
    | .KeyLeft => .ok { g with Snake := { g.Snake with Direction := Left } }
    | .KeyRight => .ok { g with Snake := { g.Snake with Direction := Right } }
    | .KeyCtrlC => .error (.exit 0)
    | .KeyEsc => .error (.exit 0)
    | .KeyRune =>
      if rune = 'R' ∨ rune = 'r' then
        match initializeGame W H rx ry g with
        | .error p => .error (.panic p)
        | .ok g1 => .ok g1
      else .ok g
    | .KeyOther _ => .ok g
  | .EventOther => .ok g

/-- Where the update loop of `main` stands after the ticks it was given. -/
inductive LoopState where
  /-- The guard `!game.GameOver` failed: the loop ended and `main` returned. -/
  | returned (g : Game)
  /-- The guard held at every test so far: the loop is still cycling. -/
  | running (g : Game)
  deriving DecidableEq, Repr

/-- The update loop of `main` (main.go 186-191), `for !game.GameOver`, with body
`move(); draw(); time.Sleep(game.Speed)`.  Neither `draw` nor `Sleep` changes
the game state.  The list holds the random draws of the successive ticks; the
input goroutine delivers no event during these ticks (it stays blocked in
`PollEvent`). -/
def mainLoop (W H : Int) : List (Nat × Nat) → Game → Except Panic LoopState
  | [], g => if g.GameOver then .ok (.returned g) else .ok (.running g)
  | (rx, ry) :: ticks, g =>
    if g.GameOver then .ok (.returned g)
    else
      match move W H rx ry g with
      | .error e => .error e
      | .ok g1 => mainLoop W H ticks g1

/-! ## Reference behaviour, in the words of the specification -/

/-- The direction an arrow key stands for (specification 4.2: arrow keys set
Direction to the corresponding value). -/
def arrowDirection : Key → Option Direction
  | .KeyUp => some Up
  | .KeyDown => some Down
  | .KeyLeft => some Left
  | .KeyRight => some Right
  | _ => none

/-- The quit event of the specification: interrupt or escape. -/
def isQuit (key : Key) : Bool :=
  key = .KeyCtrlC || key = .KeyEsc

/-- The restart event of the specification: the character R or r. -/
def isRestart (key : Key) (rune : Char) : Bool :=
  key = .KeyRune && (rune = 'R' || rune = 'r')

/-- Reference for `handleEvents`, following section 4.2 of the specification:
an arrow key sets the direction and nothing else, quit ends the process with
code 0, restart is `initialize()` whatever GameOver is, every other event is
ignored. -/
def handleEventsRef (W H : Int) (rx ry : Nat) (ev : Event) (g : Game) : Except Halt Game :=
  match ev with
  | .EventOther => .ok g
  | .EventKey key rune =>
    match arrowDirection key with
    | some d => .ok { g with Snake := { Body := g.Snake.Body, Direction := d } }
    | none =>
      if isQuit key then .error (.exit 0)
      else if isRestart key rune then (initializeGame W H rx ry g).mapError Halt.panic
      else .ok g

/-! ## Executions and state predicates -/

/-- One operation on the shared game state: a tick of the update loop (one call
of `move`, with its random draws) or one event handled by the input goroutine
(one call of `handleEvents`, with the draws a restart would use). -/
inductive Step where
  | tick (rx ry : Nat)
  | input (ev : Event) (rx ry : Nat)
  deriving DecidableEq, Repr

/-- The effect of one operation on the board `W x H`. -/
def step (W H : Int) (s : Step) (g : Game) : Except Halt Game :=
  match s with
  | .tick rx ry =>
    match move W H rx ry g with
    | .error p => .error (.panic p)
    | .ok g1 => .ok g1
  | .input ev rx ry => handleEvents W H rx ry ev g

/-- A sequence of operations, applied one after the other. -/
def run (W H : Int) : List Step → Game → Except Halt Game
  | [], g => .ok g
  | s :: rest, g =>
    match step W H s g with
    | .error e => .error e
    | .ok g1 => run W H rest g1

/-- The states reachable on the board `W x H`: `initialize()` on some prior
state, as `main` does, followed by any sequence of `move()` calls and handled
events (arrow keys and restarts are the events that change the state). -/
def Reachable (W H : Int) (g : Game) : Prop :=
  ∃ (g0 : Game) (rx ry : Nat) (steps : List Step) (gi : Game),
    initializeGame W H rx ry g0 = .ok gi ∧ run W H steps gi = .ok g

/-- Manhattan distance between two points. -/
def manhattan (p q : Point) : Nat :=
  (p.X - q.X).natAbs + (p.Y - q.Y).natAbs

/-- Consecutive body points are adjacent: every pair of neighbours in the list is
at Manhattan distance exactly 1. -/
def Adjacent : List Point → Prop
  | [] => True
  | [_] => True
  | p :: q :: rest => manhattan p q = 1 ∧ Adjacent (q :: rest)

/-- The direction is one of the four constants. -/
def ValidDirection (d : Direction) : Prop :=
  d = Up ∨ d = Down ∨ d = Left ∨ d = Right

/-- The point lies on the board `[0,W) x [0,H)`. -/
def OnBoard (W H : Int) (p : Point) : Prop :=
  0 ≤ p.X ∧ p.X < W ∧ 0 ≤ p.Y ∧ p.Y < H

/-! ## Auxiliary lemmas -/

/-- The early-return loop of `move` reports a hit exactly when the point is one
of the segments. -/
theorem hitsSegment_iff_mem (p : Point) (l : List Point) :
    hitsSegment p l = true ↔ p ∈ l := by
  induction l with
  | nil => simp [hitsSegment]
  | cons s rest ih =>
    have hp : (p.X = s.X ∧ p.Y = s.Y) ↔ p = s := by
      cases p; cases s; simp
    by_cases h : p = s
    · simp [hitsSegment, hp, h]
    · simp [hitsSegment, hp, h, ih]

/-- The wall test fails exactly on the points of `[0,W) x [0,H)`. -/
theorem outOfBounds_eq_false_iff (W H : Int) (p : Point) :
    outOfBounds W H p = false ↔ (0 ≤ p.X ∧ p.X < W ∧ 0 ≤ p.Y ∧ p.Y < H) := by
  simp only [outOfBounds, Bool.or_eq_false_iff, decide_eq_false_iff_not, not_lt, ge_iff_le,
    not_le]
  tauto

/-- The wall test succeeds exactly on the points outside `[0,W) x [0,H)`. -/
theorem outOfBounds_eq_true_iff (W H : Int) (p : Point) :
    outOfBounds W H p = true ↔ (p.X < 0 ∨ p.X ≥ W ∨ p.Y < 0 ∨ p.Y ≥ H) := by
  simp only [outOfBounds, Bool.or_eq_true, decide_eq_true_eq]
  tauto

/-- The four cases of the direction switch: Up is y-1, Down is y+1, Left is x-1,
Right is x+1. -/
theorem newHead_cases (head : Point) :
    newHead Up head = ⟨head.X, head.Y - 1⟩ ∧ newHead Down head = ⟨head.X, head.Y + 1⟩ ∧
    newHead Left head = ⟨head.X - 1, head.Y⟩ ∧ newHead Right head = ⟨head.X + 1, head.Y⟩ := by
  simp [newHead, Up, Down, Left, Right]

/-- On a board of positive size `spawnFood` returns, with the draws reduced
modulo the board size. -/
theorem spawnFood_ok (W H : Int) (rx ry : Nat) (g : Game) (hW : 0 < W) (hH : 0 < H) :
    spawnFood W H rx ry g = .ok { g with Food := ⟨(rx : Int) % W, (ry : Int) % H⟩ } := by
  simp [spawnFood, Intn, not_le.mpr hW, not_le.mpr hH]

/-! ## move -/

/-- C1: when GameOver is true, move returns the state it was given: body,
direction, Food, Score, Speed and GameOver are all unchanged, on every board. -/
theorem move_gameOver_noop (W H : Int) (rx ry : Nat) (g : Game)
    (hover : g.GameOver = true) : move W H rx ry g = .ok g := by
  simp [move, hover]

/-- Witness of C1: a finished game on a 20 x 10 board. -/
theorem move_gameOver_noop_witness :
    move 20 10 3 4 ⟨⟨[⟨19, 5⟩, ⟨18, 5⟩, ⟨17, 5⟩], Right⟩, ⟨2, 2⟩, 4, 80000000, true⟩
      = .ok ⟨⟨[⟨19, 5⟩, ⟨18, 5⟩, ⟨17, 5⟩], Right⟩, ⟨2, 2⟩, 4, 80000000, true⟩ :=
  move_gameOver_noop 20 10 3 4 _ rfl

/-- C2: an ordinary move.  In a running game with body `head :: rest`, if the
new head `nh` (the old head offset one cell in the current direction: Up is
y-1, Down is y+1, Left is x-1, Right is x+1) is inside `[0,W) x [0,H)`, is no
segment of `Body[1:]` and is not the food, then move returns, the body becomes
`nh` followed by the old body without its last segment, the length is
unchanged, and Food, Score, Speed, Direction and GameOver are unchanged. -/
theorem move_ordinary (W H : Int) (rx ry : Nat) (g : Game) (head nh : Point)
    (rest : List Point)
    (hrun : g.GameOver = false) (hbody : g.Snake.Body = head :: rest)
    (hnh : newHead g.Snake.Direction head = nh)
    (hin : 0 ≤ nh.X ∧ nh.X < W ∧ 0 ≤ nh.Y ∧ nh.Y < H)
    (hself : nh ∉ rest) (hfood : nh ≠ g.Food) :
    (g.Snake.Direction = Up → nh = ⟨head.X, head.Y - 1⟩) ∧
    (g.Snake.Direction = Down → nh = ⟨head.X, head.Y + 1⟩) ∧
    (g.Snake.Direction = Left → nh = ⟨head.X - 1, head.Y⟩) ∧
    (g.Snake.Direction = Right → nh = ⟨head.X + 1, head.Y⟩) ∧
    ∃ g1 : Game, move W H rx ry g = .ok g1 ∧
      g1.Snake.Body = nh :: (head :: rest).dropLast ∧
      g1.Snake.Body.length = g.Snake.Body.length ∧
      g1.Food = g.Food ∧ g1.Score = g.Score ∧ g1.Speed = g.Speed ∧
      g1.Snake.Direction = g.Snake.Direction ∧ g1.GameOver = false := by
  have hc := newHead_cases head
  refine ⟨fun h => ?_, fun h => ?_, fun h => ?_, fun h => ?_, ?_⟩
  · rw [← hnh, h]; exact hc.1
  · rw [← hnh, h]; exact hc.2.1
  · rw [← hnh, h]; exact hc.2.2.1
  · rw [← hnh, h]; exact hc.2.2.2
  · have hb : outOfBounds W H nh = false := (outOfBounds_eq_false_iff W H nh).mpr hin
    have hs : hitsSegment nh rest = false := by
      rw [Bool.eq_false_iff]
      exact fun h => hself ((hitsSegment_iff_mem nh rest).mp h)
    have hf : ¬ (nh.X = g.Food.X ∧ nh.Y = g.Food.Y) := by
      intro h
      apply hfood
      cases nh; cases hF : g.Food
      rw [hF] at h
      simp at h
      simp [h.1, h.2]
    refine ⟨{ g with Snake := { g.Snake with Body := nh :: (head :: rest).dropLast } },
      ?_, rfl, ?_, rfl, rfl, rfl, rfl, hrun⟩
    · simp [move, hrun, hbody, hnh, hb, hs, hf]
    · cases rest <;> simp [hbody]

/-- Witness of C2: body [(5,5),(5,6),(5,7)] moving Right on the 7 x 8 board, food
at (0,0), becomes [(6,5),(5,5),(5,6)]. -/
theorem move_ordinary_witness :
    move 7 8 0 0 ⟨⟨[⟨5, 5⟩, ⟨5, 6⟩, ⟨5, 7⟩], Right⟩, ⟨0, 0⟩, 0, 100000000, false⟩
      = .ok ⟨⟨[⟨6, 5⟩, ⟨5, 5⟩, ⟨5, 6⟩], Right⟩, ⟨0, 0⟩, 0, 100000000, false⟩ := by
  obtain ⟨_, _, _, _, g1, hmove, hbody, _, hfood, hscore, hspeed, hdir, hover⟩ :=
    move_ordinary 7 8 0 0
      ⟨⟨[⟨5, 5⟩, ⟨5, 6⟩, ⟨5, 7⟩], Right⟩, ⟨0, 0⟩, 0, 100000000, false⟩
      ⟨5, 5⟩ ⟨6, 5⟩ [⟨5, 6⟩, ⟨5, 7⟩] rfl rfl (by decide) (by decide) (by decide) (by decide)
  rw [hmove]
  obtain ⟨⟨body, dir⟩, food, score, speed, over⟩ := g1
  simp only at hbody hfood hscore hspeed hdir hover
  subst hbody hfood hscore hspeed hdir hover
  rfl

/-- C3: eating the food.  In a running game with body `head :: rest`, if the
new head `nh` is inside `[0,W) x [0,H)`, is no segment of `Body[1:]` and equals
Food, then move returns, Score grows by exactly 1, Speed drops by exactly 5 ms,
the body is `nh` followed by the whole old body (one segment longer), Food is
the freshly spawned point (the draws reduced modulo W and H), which lies in
`[0,W) x [0,H)`, and GameOver stays false. -/
theorem move_eats_food (W H : Int) (rx ry : Nat) (g : Game) (head nh : Point)
    (rest : List Point)
    (hrun : g.GameOver = false) (hbody : g.Snake.Body = head :: rest)
    (hnh : newHead g.Snake.Direction head = nh)
    (hin : 0 ≤ nh.X ∧ nh.X < W ∧ 0 ≤ nh.Y ∧ nh.Y < H)
    (hself : nh ∉ rest) (hfood : nh = g.Food) :
    ∃ g1 : Game, move W H rx ry g = .ok g1 ∧
      g1.Score = g.Score + 1 ∧ g1.Speed = g.Speed - 5 * Millisecond ∧
      g1.Snake.Body = nh :: head :: rest ∧
      g1.Snake.Body.length = g.Snake.Body.length + 1 ∧
      g1.Food = ⟨(rx : Int) % W, (ry : Int) % H⟩ ∧
      (0 ≤ g1.Food.X ∧ g1.Food.X < W ∧ 0 ≤ g1.Food.Y ∧ g1.Food.Y < H) ∧
      g1.Snake.Direction = g.Snake.Direction ∧ g1.GameOver = false := by
  have hW : 0 < W := lt_of_le_of_lt hin.1 hin.2.1
  have hH : 0 < H := lt_of_le_of_lt hin.2.2.1 hin.2.2.2
  have hb : outOfBounds W H nh = false := (outOfBounds_eq_false_iff W H nh).mpr hin
  have hs : hitsSegment nh rest = false := by
    rw [Bool.eq_false_iff]
    exact fun h => hself ((hitsSegment_iff_mem nh rest).mp h)
  have hf : nh.X = g.Food.X ∧ nh.Y = g.Food.Y := by rw [hfood]; exact ⟨rfl, rfl⟩
  refine ⟨{ Snake := { g.Snake with Body := nh :: head :: rest },
            Food := ⟨(rx : Int) % W, (ry : Int) % H⟩,
            Score := g.Score + 1, Speed := g.Speed - 5 * Millisecond,
            GameOver := g.GameOver },
    ?_, rfl, rfl, rfl, ?_, rfl, ?_, rfl, hrun⟩
  · simp [move, hrun, hbody, hnh, hb, hs, hf, spawnFood_ok W H rx ry g hW hH]
  · simp [hbody]
  · exact ⟨Int.emod_nonneg _ (ne_of_gt hW), Int.emod_lt_of_pos _ hW,
      Int.emod_nonneg _ (ne_of_gt hH), Int.emod_lt_of_pos _ hH⟩

/-- Witness of C3: the starting snake eats food at (6,5) on a 20 x 10 board; the
draws 47 and 13 put the next food at (7,3). -/
theorem move_eats_food_witness :
    move 20 10 47 13 ⟨⟨[⟨5, 5⟩, ⟨5, 6⟩, ⟨5, 7⟩], Right⟩, ⟨6, 5⟩, 0, 100000000, false⟩
      = .ok ⟨⟨[⟨6, 5⟩, ⟨5, 5⟩, ⟨5, 6⟩, ⟨5, 7⟩], Right⟩, ⟨7, 3⟩, 1, 95000000, false⟩ := by
  obtain ⟨g1, hmove, hscore, hspeed, hbody, _, hfood, _, hdir, hover⟩ :=
    move_eats_food 20 10 47 13
      ⟨⟨[⟨5, 5⟩, ⟨5, 6⟩, ⟨5, 7⟩], Right⟩, ⟨6, 5⟩, 0, 100000000, false⟩
      ⟨5, 5⟩ ⟨6, 5⟩ [⟨5, 6⟩, ⟨5, 7⟩] rfl rfl (by decide) (by decide) (by decide) rfl
  rw [hmove]
  obtain ⟨⟨body, dir⟩, food, score, speed, over⟩ := g1
  simp only at hbody hfood hscore hspeed hdir hover
  subst hbody hfood hscore hspeed hdir hover
  rfl

/-- C4: hitting a wall.  In a running game with body `head :: rest`, if the new
head has x < 0, x >= W, y < 0 or y >= H, then move returns the same state with
GameOver set to true: body, Direction, Food, Score and Speed are unchanged. -/
theorem move_hits_wall (W H : Int) (rx ry : Nat) (g : Game) (head nh : Point)
    (rest : List Point)
    (hrun : g.GameOver = false) (hbody : g.Snake.Body = head :: rest)
    (hnh : newHead g.Snake.Direction head = nh)
    (hout : nh.X < 0 ∨ nh.X ≥ W ∨ nh.Y < 0 ∨ nh.Y ≥ H) :
    ∃ g1 : Game, move W H rx ry g = .ok g1 ∧ g1.GameOver = true ∧
      g1.Snake.Body = g.Snake.Body ∧ g1.Snake.Direction = g.Snake.Direction ∧
      g1.Food = g.Food ∧ g1.Score = g.Score ∧ g1.Speed = g.Speed := by
  have hb : outOfBounds W H nh = true := (outOfBounds_eq_true_iff W H nh).mpr hout
  refine ⟨{ g with GameOver := true }, ?_, rfl, rfl, rfl, rfl, rfl, rfl⟩
  simp [move, hrun, hbody, hnh, hb]

/-- Witness of C4: the head at the right edge of a 20 x 10 board, moving Right. -/
theorem move_hits_wall_witness :
    move 20 10 0 0 ⟨⟨[⟨19, 5⟩, ⟨18, 5⟩, ⟨17, 5⟩], Right⟩, ⟨2, 2⟩, 4, 80000000, false⟩
      = .ok ⟨⟨[⟨19, 5⟩, ⟨18, 5⟩, ⟨17, 5⟩], Right⟩, ⟨2, 2⟩, 4, 80000000, true⟩ := by
  obtain ⟨g1, hmove, hover, hbody, hdir, hfood, hscore, hspeed⟩ :=
    move_hits_wall 20 10 0 0
      ⟨⟨[⟨19, 5⟩, ⟨18, 5⟩, ⟨17, 5⟩], Right⟩, ⟨2, 2⟩, 4, 80000000, false⟩
      ⟨19, 5⟩ ⟨20, 5⟩ [⟨18, 5⟩, ⟨17, 5⟩] rfl rfl (by decide) (by decide)
  rw [hmove]
  obtain ⟨⟨body, dir⟩, food, score, speed, over⟩ := g1
  simp only at hbody hfood hscore hspeed hdir hover
  subst hbody hfood hscore hspeed hdir hover
  rfl

/-- C5: running into the body.  In a running game with body `head :: rest`, if
the new head is inside the board and equals a segment of `Body[1:]` (the last
segment included), then move returns the same state with GameOver set to true:
body, Food, Score and Speed (and Direction) are unchanged. -/
theorem move_hits_self (W H : Int) (rx ry : Nat) (g : Game) (head nh : Point)
    (rest : List Point)
    (hrun : g.GameOver = false) (hbody : g.Snake.Body = head :: rest)
    (hnh : newHead g.Snake.Direction head = nh)
    (hin : 0 ≤ nh.X ∧ nh.X < W ∧ 0 ≤ nh.Y ∧ nh.Y < H)
    (hself : nh ∈ rest) :
    ∃ g1 : Game, move W H rx ry g = .ok g1 ∧ g1.GameOver = true ∧
      g1.Snake.Body = g.Snake.Body ∧ g1.Food = g.Food ∧ g1.Score = g.Score ∧
      g1.Speed = g.Speed ∧ g1.Snake.Direction = g.Snake.Direction := by
  have hb : outOfBounds W H nh = false := (outOfBounds_eq_false_iff W H nh).mpr hin
  have hs : hitsSegment nh rest = true := (hitsSegment_iff_mem nh rest).mpr hself
  refine ⟨{ g with GameOver := true }, ?_, rfl, rfl, rfl, rfl, rfl, rfl⟩
  simp [move, hrun, hbody, hnh, hb, hs]

/-- Witness of C5: a snake curled in a 2 x 2 square moves Left into its own last
segment. -/
theorem move_hits_self_witness :
    move 20 10 0 0
      ⟨⟨[⟨6, 5⟩, ⟨6, 6⟩, ⟨5, 6⟩, ⟨5, 5⟩], Left⟩, ⟨2, 2⟩, 1, 95000000, false⟩
      = .ok ⟨⟨[⟨6, 5⟩, ⟨6, 6⟩, ⟨5, 6⟩, ⟨5, 5⟩], Left⟩, ⟨2, 2⟩, 1, 95000000, true⟩ := by
  obtain ⟨g1, hmove, hover, hbody, hfood, hscore, hspeed, hdir⟩ :=
    move_hits_self 20 10 0 0
      ⟨⟨[⟨6, 5⟩, ⟨6, 6⟩, ⟨5, 6⟩, ⟨5, 5⟩], Left⟩, ⟨2, 2⟩, 1, 95000000, false⟩
      ⟨6, 5⟩ ⟨5, 5⟩ [⟨6, 6⟩, ⟨5, 6⟩, ⟨5, 5⟩] rfl rfl (by decide) (by decide) (by decide)
  rw [hmove]
  obtain ⟨⟨body, dir⟩, food, score, speed, over⟩ := g1
  simp only at hbody hfood hscore hspeed hdir hover
  subst hbody hfood hscore hspeed hdir hover
  rfl

/-! ## initialize and spawnFood -/

/-- C6: on a board of positive width and height, initialize returns, whatever
the prior state was (GameOver true or false, any Score, Speed, body, Food): the
body is exactly [(5,5),(5,6),(5,7)], the direction is Right, Score is 0, Speed
is 100 ms and GameOver is false.  The result does not depend on the prior
state at all; Food is the freshly spawned point. -/
theorem initialize_resets (W H : Int) (rx ry : Nat) (g : Game)
    (hW : 0 < W) (hH : 0 < H) :
    initializeGame W H rx ry g =
      .ok { Snake := { Body := [⟨5, 5⟩, ⟨5, 6⟩, ⟨5, 7⟩], Direction := Right },
            Food := ⟨(rx : Int) % W, (ry : Int) % H⟩,
            Score := 0, Speed := 100 * Millisecond, GameOver := false } := by
  simp [initializeGame, spawnFood_ok W H rx ry _ hW hH]

/-- Witness of C6: restart of a lost game (GameOver true, Score 7, Speed 65 ms, a
body of ten segments) on a 20 x 10 board. -/
theorem initialize_resets_witness :
    initializeGame 20 10 47 13
      ⟨⟨[⟨19, 5⟩, ⟨18, 5⟩, ⟨17, 5⟩, ⟨16, 5⟩, ⟨15, 5⟩, ⟨14, 5⟩, ⟨13, 5⟩, ⟨12, 5⟩,
          ⟨11, 5⟩, ⟨10, 5⟩], Up⟩, ⟨2, 2⟩, 7, 65000000, true⟩
      = .ok ⟨⟨[⟨5, 5⟩, ⟨5, 6⟩, ⟨5, 7⟩], Right⟩, ⟨7, 3⟩, 0, 100000000, false⟩ :=
  initialize_resets 20 10 47 13 _ (by decide) (by decide)

/-- Counterexample to C7 as stated: on a terminal of 80 columns and 7 rows
initialize returns, and the body segment (5,7) has y = 7, outside `[0,7)`. -/
theorem initialize_body_outside_low_board :
    ∃ g1 : Game,
      initializeGame 80 7 0 0 ⟨⟨[], Up⟩, ⟨0, 0⟩, 0, 0, false⟩ = .ok g1 ∧
      g1.Snake.Body = [⟨5, 5⟩, ⟨5, 6⟩, ⟨5, 7⟩] ∧
      ∃ p ∈ g1.Snake.Body, ¬ (0 ≤ p.X ∧ p.X < 80 ∧ 0 ≤ p.Y ∧ p.Y < 7) :=
  ⟨⟨⟨[⟨5, 5⟩, ⟨5, 6⟩, ⟨5, 7⟩], Right⟩, ⟨0, 0⟩, 0, 100000000, false⟩, rfl, rfl,
    ⟨5, 7⟩, by decide, by decide⟩

/-- C7, amended: on every board with W >= 6 and H >= 8, initialize returns and
every snake body coordinate (x, y) satisfies 0 <= x < W and 0 <= y < H. -/
theorem initialize_body_in_bounds (W H : Int) (rx ry : Nat) (g : Game)
    (hW : 6 ≤ W) (hH : 8 ≤ H) :
    ∃ g1 : Game, initializeGame W H rx ry g = .ok g1 ∧
      ∀ p ∈ g1.Snake.Body, 0 ≤ p.X ∧ p.X < W ∧ 0 ≤ p.Y ∧ p.Y < H := by
  have hok : initializeGame W H rx ry g =
      .ok { Snake := { Body := [⟨5, 5⟩, ⟨5, 6⟩, ⟨5, 7⟩], Direction := Right },
            Food := ⟨(rx : Int) % W, (ry : Int) % H⟩,
            Score := 0, Speed := 100 * Millisecond, GameOver := false } := by
    simp [initializeGame, spawnFood_ok W H rx ry _ (by omega : 0 < W) (by omega : 0 < H)]
  refine ⟨_, hok, ?_⟩
  intro p hp
  simp only [List.mem_cons, List.mem_singleton, List.not_mem_nil, or_false] at hp
  rcases hp with rfl | rfl | rfl <;> refine ⟨?_, ?_, ?_, ?_⟩ <;> simp <;> omega

/-- Witness of C7 (amended): the smallest such board, 6 x 8. -/
theorem initialize_body_in_bounds_witness :
    ∃ g1 : Game, initializeGame 6 8 0 0 ⟨⟨[], Up⟩, ⟨0, 0⟩, 0, 0, true⟩ = .ok g1 ∧
      ∀ p ∈ g1.Snake.Body, 0 ≤ p.X ∧ p.X < 6 ∧ 0 ≤ p.Y ∧ p.Y < 8 :=
  initialize_body_in_bounds 6 8 0 0 _ (by decide) (by decide)

/-- C8: on a board with W > 0 and H > 0, for every state and every pair of
random draws, spawnFood returns, Food = (x, y) has 0 <= x < W and 0 <= y < H,
and no other field changes (Snake, Score, Speed, GameOver are as before). -/
theorem spawnFood_in_bounds (W H : Int) (rx ry : Nat) (g : Game)
    (hW : 0 < W) (hH : 0 < H) :
    ∃ g1 : Game, spawnFood W H rx ry g = .ok g1 ∧
      (0 ≤ g1.Food.X ∧ g1.Food.X < W ∧ 0 ≤ g1.Food.Y ∧ g1.Food.Y < H) ∧
      g1.Snake = g.Snake ∧ g1.Score = g.Score ∧ g1.Speed = g.Speed ∧
      g1.GameOver = g.GameOver := by
  refine ⟨_, spawnFood_ok W H rx ry g hW hH, ?_, rfl, rfl, rfl, rfl⟩
  exact ⟨Int.emod_nonneg _ (ne_of_gt hW), Int.emod_lt_of_pos _ hW,
    Int.emod_nonneg _ (ne_of_gt hH), Int.emod_lt_of_pos _ hH⟩

/-- Witness of C8: draws 47 and 13 on a 20 x 10 board. -/
theorem spawnFood_in_bounds_witness :
    ∃ g1 : Game,
      spawnFood 20 10 47 13 ⟨⟨[⟨5, 5⟩, ⟨5, 6⟩, ⟨5, 7⟩], Right⟩, ⟨2, 2⟩, 3, 85000000, false⟩
        = .ok g1 ∧
      (0 ≤ g1.Food.X ∧ g1.Food.X < 20 ∧ 0 ≤ g1.Food.Y ∧ g1.Food.Y < 10) ∧
      g1.Snake = ⟨[⟨5, 5⟩, ⟨5, 6⟩, ⟨5, 7⟩], Right⟩ ∧ g1.Score = 3 ∧
      g1.Speed = 85000000 ∧ g1.GameOver = false :=
  spawnFood_in_bounds 20 10 47 13 _ (by decide) (by decide)

/-! ## The update loop of main -/

/-- The guard of the update loop: tested in a state with GameOver = true it ends
the loop at once, whatever ticks remain, and leaves the state as it is. -/
theorem mainLoop_gameOver (W H : Int) (ticks : List (Nat × Nat)) (g : Game)
    (hover : g.GameOver = true) : mainLoop W H ticks g = .ok (.returned g) := by
  cases ticks with
  | nil => simp [mainLoop, hover]
  | cons t ticks => obtain ⟨rx, ry⟩ := t; simp [mainLoop, hover]

/-- The update loop ends only in a state with GameOver = true, and is still
cycling only in a state with GameOver = false. -/
theorem mainLoop_result (W H : Int) (ticks : List (Nat × Nat)) (g g1 : Game) :
    (mainLoop W H ticks g = .ok (.returned g1) → g1.GameOver = true) ∧
    (mainLoop W H ticks g = .ok (.running g1) → g1.GameOver = false) := by
  induction ticks generalizing g with
  | nil =>
    cases hg : g.GameOver <;> simp [mainLoop, hg]
    · intro h; rw [← h]; exact hg
    · intro h; rw [← h]; exact hg
  | cons t ticks ih =>
    obtain ⟨rx, ry⟩ := t
    cases hg : g.GameOver
    · cases hm : move W H rx ry g with
      | error e => simp [mainLoop, hg, hm]
      | ok g2 => simpa [mainLoop, hg, hm] using ih g2
    · simp [mainLoop, hg]
      intro h; rw [← h]; exact hg

/-- C9: the update loop at the failing input.  On an 8 x 8 board, with food at
(0,0) and no key event during the ticks, the starting snake moves right twice,
the third move() sets GameOver at the wall, and the next test of the guard
`!game.GameOver` ends the loop: main returns and the process ends, although two
more ticks were available and no quit event occurred.  The snake is not frozen
until a restart, as the claim, the comment at main.go 105 and the GameOver guard
of move() would have it. -/
theorem mainLoop_ends_without_quit :
    mainLoop 8 8 [(0, 0), (0, 0), (0, 0), (0, 0), (0, 0)]
      ⟨⟨[⟨5, 5⟩, ⟨5, 6⟩, ⟨5, 7⟩], Right⟩, ⟨0, 0⟩, 0, 100000000, false⟩
      = .ok (.returned ⟨⟨[⟨7, 5⟩, ⟨6, 5⟩, ⟨5, 5⟩], Right⟩, ⟨0, 0⟩, 0, 100000000, true⟩) :=
  rfl

/-- Once a move() of the update loop has set GameOver to true, the next test of
the guard ends the loop: no further move() is made, whatever ticks remain, and
the state stays as that move() left it. -/
theorem mainLoop_ends_after_gameOver (W H : Int) (rx ry : Nat)
    (ticks : List (Nat × Nat)) (g g1 : Game)
    (hrun : g.GameOver = false) (hmove : move W H rx ry g = .ok g1)
    (hover : g1.GameOver = true) :
    mainLoop W H ((rx, ry) :: ticks) g = .ok (.returned g1) := by
  simp [mainLoop, hrun, hmove, mainLoop_gameOver W H ticks g1 hover]

/-- Example: the head at the right edge of a 20 x 10 board; the first tick ends the
game and the two remaining ticks are never run. -/
theorem mainLoop_ends_after_gameOver_witness :
    mainLoop 20 10 [(0, 0), (1, 1), (2, 2)]
      ⟨⟨[⟨19, 5⟩, ⟨18, 5⟩, ⟨17, 5⟩], Right⟩, ⟨2, 2⟩, 4, 80000000, false⟩
      = .ok (.returned
          ⟨⟨[⟨19, 5⟩, ⟨18, 5⟩, ⟨17, 5⟩], Right⟩, ⟨2, 2⟩, 4, 80000000, true⟩) :=
  mainLoop_ends_after_gameOver 20 10 0 0 [(1, 1), (2, 2)] _ _ rfl rfl rfl

/-! ## handleEvents -/

/-- C10: handleEvents agrees with the reference on every event: an arrow key
sets Snake.Direction to the corresponding value whatever the current direction,
body and GameOver are, and changes nothing else; the rune R or r yields exactly
what initialize() yields, whether GameOver is true or false; every other key or
rune, and every event that is not a key event, leaves the whole state unchanged
(Ctrl-C and Esc end the process with code 0). -/
theorem handleEvents_eq_ref (W H : Int) (rx ry : Nat) (ev : Event) (g : Game) :
    handleEvents W H rx ry ev g = handleEventsRef W H rx ry ev g := by
  cases ev with
  | EventOther => rfl
  | EventKey key rune =>
    cases key <;> simp [handleEvents, handleEventsRef, arrowDirection, isQuit, isRestart]
    by_cases hr : rune = 'R' ∨ rune = 'r'
    · simp only [hr, if_true]
      cases initializeGame W H rx ry g <;> rfl
    · simp only [hr, if_false]

/-! ## Case analysis of the operations -/

/-- Equality of points is equality of both coordinates, as `move` tests it. -/
theorem point_eq_iff (p q : Point) : (p.X = q.X ∧ p.Y = q.Y) ↔ p = q := by
  cases p; cases q; simp

/-- When initialize returns, the board has positive size and the result is the
fixed starting state with the freshly spawned food. -/
theorem initializeGame_cases (W H : Int) (rx ry : Nat) (g0 gi : Game)
    (h : initializeGame W H rx ry g0 = .ok gi) :
    0 < W ∧ 0 < H ∧
    gi = { Snake := { Body := [⟨5, 5⟩, ⟨5, 6⟩, ⟨5, 7⟩], Direction := Right },
           Food := ⟨(rx : Int) % W, (ry : Int) % H⟩,
           Score := 0, Speed := 100 * Millisecond, GameOver := false } := by
  by_cases hW : 0 < W
  · by_cases hH : 0 < H
    · simp [initializeGame, spawnFood_ok W H rx ry _ hW hH] at h
      exact ⟨hW, hH, h.symm⟩
    · simp [initializeGame, spawnFood, Intn, not_le.mpr hW, not_lt.mp hH] at h
  · simp [initializeGame, spawnFood, Intn, not_lt.mp hW] at h

/-- The four ways in which move returns: the game was over already; the new head
hits a wall or the body; an ordinary move; a move that eats the food. -/
theorem move_cases (W H : Int) (rx ry : Nat) (g g1 : Game)
    (h : move W H rx ry g = .ok g1) :
    (g.GameOver = true ∧ g1 = g) ∨
    ∃ head rest, g.GameOver = false ∧ g.Snake.Body = head :: rest ∧
      (((¬ OnBoard W H (newHead g.Snake.Direction head) ∨
            newHead g.Snake.Direction head ∈ rest) ∧
          g1 = { g with GameOver := true }) ∨
       (OnBoard W H (newHead g.Snake.Direction head) ∧
          newHead g.Snake.Direction head ∉ rest ∧
          newHead g.Snake.Direction head ≠ g.Food ∧
          g1 = { g with Snake := { g.Snake with
                  Body := newHead g.Snake.Direction head :: (head :: rest).dropLast } }) ∨
       (OnBoard W H (newHead g.Snake.Direction head) ∧
          newHead g.Snake.Direction head ∉ rest ∧
          newHead g.Snake.Direction head = g.Food ∧
          g1 = { Snake := { g.Snake with
                   Body := newHead g.Snake.Direction head :: head :: rest },
                 Food := ⟨(rx : Int) % W, (ry : Int) % H⟩,
                 Score := g.Score + 1, Speed := g.Speed - 5 * Millisecond,
                 GameOver := false })) := by
  cases hover : g.GameOver
  · right
    cases hbody : g.Snake.Body with
    | nil => simp [move, hover, hbody] at h
    | cons head rest =>
      refine ⟨head, rest, rfl, rfl, ?_⟩
      cases hb : outOfBounds W H (newHead g.Snake.Direction head)
      · have hin : OnBoard W H (newHead g.Snake.Direction head) :=
          (outOfBounds_eq_false_iff W H _).mp hb
        have hW : 0 < W := lt_of_le_of_lt hin.1 hin.2.1
        have hH : 0 < H := lt_of_le_of_lt hin.2.2.1 hin.2.2.2
        cases hs : hitsSegment (newHead g.Snake.Direction head) rest
        · have hnot : newHead g.Snake.Direction head ∉ rest := by
            intro hmem
            rw [(hitsSegment_iff_mem _ rest).mpr hmem] at hs
            exact Bool.noConfusion hs
          by_cases hf : newHead g.Snake.Direction head = g.Food
          · right; right
            have hf2 : (newHead g.Snake.Direction head).X = g.Food.X ∧
                (newHead g.Snake.Direction head).Y = g.Food.Y := (point_eq_iff _ _).mpr hf
            simp [move, hover, hbody, hb, hs, hf2, spawnFood_ok W H rx ry g hW hH] at h
            exact ⟨hin, hnot, hf, by rw [← h]⟩
          · right; left
            have hf2 : ¬ ((newHead g.Snake.Direction head).X = g.Food.X ∧
                (newHead g.Snake.Direction head).Y = g.Food.Y) :=
              fun hc => hf ((point_eq_iff _ _).mp hc)
            simp [move, hover, hbody, hb, hs, hf2] at h
            exact ⟨hin, hnot, hf, by rw [← h]⟩
        · left
          simp [move, hover, hbody, hb, hs] at h
          exact ⟨Or.inr ((hitsSegment_iff_mem _ rest).mp hs), h.symm⟩
      · left
        simp [move, hover, hbody, hb] at h
        refine ⟨Or.inl ?_, h.symm⟩
        intro hin
        rw [(outOfBounds_eq_false_iff W H _).mpr hin] at hb
        exact Bool.noConfusion hb
  · left
    simp [move, hover] at h
    exact ⟨rfl, h.symm⟩

/-- The function move returns whenever the game is over or the body is not empty:
the only panic of move is `Body[0]` on an empty body. -/
theorem move_returns (W H : Int) (rx ry : Nat) (g : Game)
    (h : g.GameOver = true ∨ g.Snake.Body ≠ []) :
    ∃ g1, move W H rx ry g = .ok g1 := by
  cases hover : g.GameOver
  · cases hbody : g.Snake.Body with
    | nil => rcases h with h | h
             · rw [hover] at h; exact Bool.noConfusion h
             · exact absurd hbody h
    | cons head rest =>
      cases hb : outOfBounds W H (newHead g.Snake.Direction head)
      · have hin := (outOfBounds_eq_false_iff W H _).mp hb
        have hW : 0 < W := lt_of_le_of_lt hin.1 hin.2.1
        have hH : 0 < H := lt_of_le_of_lt hin.2.2.1 hin.2.2.2
        cases hs : hitsSegment (newHead g.Snake.Direction head) rest
        · by_cases hf : (newHead g.Snake.Direction head).X = g.Food.X ∧
              (newHead g.Snake.Direction head).Y = g.Food.Y
          · simp [move, hover, hbody, hb, hs, hf, spawnFood_ok W H rx ry g hW hH]
          · simp [move, hover, hbody, hb, hs, hf]
        · simp [move, hover, hbody, hb, hs]
      · simp [move, hover, hbody, hb]
  · exact ⟨g, by simp [move, hover]⟩

/-- The ways in which handleEvents returns: the state is unchanged, or only the
direction is set to one of the four constants, or the result is that of
initialize. -/
theorem handleEvents_cases (W H : Int) (rx ry : Nat) (ev : Event) (g g1 : Game)
    (h : handleEvents W H rx ry ev g = .ok g1) :
    g1 = g ∨
    (∃ d, ValidDirection d ∧ g1 = { g with Snake := { g.Snake with Direction := d } }) ∨
    initializeGame W H rx ry g = .ok g1 := by
  cases ev with
  | EventOther => left; simp [handleEvents] at h; exact h.symm
  | EventKey key rune =>
    cases key with
    | KeyUp =>
      right; left; simp [handleEvents] at h
      exact ⟨Up, Or.inl rfl, h.symm⟩
    | KeyDown =>
      right; left; simp [handleEvents] at h
      exact ⟨Down, Or.inr (Or.inl rfl), h.symm⟩
    | KeyLeft =>
      right; left; simp [handleEvents] at h
      exact ⟨Left, Or.inr (Or.inr (Or.inl rfl)), h.symm⟩
    | KeyRight =>
      right; left; simp [handleEvents] at h
      exact ⟨Right, Or.inr (Or.inr (Or.inr rfl)), h.symm⟩
    | KeyCtrlC => simp [handleEvents] at h
    | KeyEsc => simp [handleEvents] at h
    | KeyRune =>
      by_cases hr : rune = 'R' ∨ rune = 'r'
      · right; right
        cases hi : initializeGame W H rx ry g with
        | error e => simp [handleEvents, hr, hi] at h
        | ok g2 => simp [handleEvents, hr, hi] at h; rw [h]
      · left; simp [handleEvents, hr] at h; exact h.symm
    | KeyOther code => left; simp [handleEvents] at h; exact h.symm

/-- For each of the four directions the new head is at Manhattan distance 1 from
the old head. -/
theorem manhattan_newHead (d : Direction) (head : Point) (hd : ValidDirection d) :
    manhattan (newHead d head) head = 1 := by
  have hc := newHead_cases head
  rcases hd with rfl | rfl | rfl | rfl
  · rw [hc.1]; simp [manhattan]
  · rw [hc.2.1]; simp [manhattan]
  · rw [hc.2.2.1]; simp [manhattan]
  · rw [hc.2.2.2]; simp [manhattan]

/-- For each of the four directions the new head differs from the old head. -/
theorem newHead_ne_head (d : Direction) (head : Point) (hd : ValidDirection d) :
    newHead d head ≠ head := by
  intro h
  have h1 := manhattan_newHead d head hd
  rw [h] at h1
  simp [manhattan] at h1

/-- Dropping the last segment keeps consecutive points adjacent. -/
theorem adjacent_dropLast : ∀ l : List Point, Adjacent l → Adjacent l.dropLast
  | [], _ => trivial
  | [_], _ => trivial
  | [_, _], _ => trivial
  | p :: q :: r :: rest, h => by
    have ih := adjacent_dropLast (q :: r :: rest) h.2
    exact ⟨h.1, ih⟩

/-! ## Reversal, adjacency, length, distinctness -/

/-- C11: a reversal into the neck is caught by the next step.  In a running
game with at least two segments `head :: neck :: rest`, if `d` is the direction
of the arrow key and the head offset one cell in direction `d` is the neck
`Body[1]`, then handleEvents returns with the direction set, and the move()
that follows, on any board and with any draws, returns with GameOver = true and
the body (and Food, Score, Speed) unchanged. -/
theorem reversal_caught (W H : Int) (rx ry rx2 ry2 : Nat) (g : Game) (key : Key)
    (rune : Char) (d : Direction) (head neck : Point) (rest : List Point)
    (hrun : g.GameOver = false) (hbody : g.Snake.Body = head :: neck :: rest)
    (hkey : (key = .KeyUp ∧ d = Up) ∨ (key = .KeyDown ∧ d = Down) ∨
      (key = .KeyLeft ∧ d = Left) ∨ (key = .KeyRight ∧ d = Right))
    (hneck : newHead d head = neck) :
    ∃ g1 g2 : Game, handleEvents W H rx ry (.EventKey key rune) g = .ok g1 ∧
      g1.Snake.Direction = d ∧ move W H rx2 ry2 g1 = .ok g2 ∧
      g2.GameOver = true ∧ g2.Snake.Body = g.Snake.Body ∧
      g2.Food = g.Food ∧ g2.Score = g.Score ∧ g2.Speed = g.Speed := by
  have hev : handleEvents W H rx ry (.EventKey key rune) g =
      .ok { g with Snake := { g.Snake with Direction := d } } := by
    rcases hkey with ⟨rfl, rfl⟩ | ⟨rfl, rfl⟩ | ⟨rfl, rfl⟩ | ⟨rfl, rfl⟩ <;> rfl
  refine ⟨_, { g with Snake := { g.Snake with Direction := d }, GameOver := true },
    hev, rfl, ?_, rfl, rfl, rfl, rfl, rfl⟩
  cases hb : outOfBounds W H neck
  · have hs : hitsSegment neck (neck :: rest) = true :=
      (hitsSegment_iff_mem neck (neck :: rest)).mpr (List.mem_cons_self _ _)
    simp [move, hrun, hbody, hneck, hb, hs]
  · simp [move, hrun, hbody, hneck, hb]

/-- Witness of C11: the snake [(5,5),(4,5),(3,5)] heading Right receives the
Left arrow; the next move() on a 20 x 10 board ends the game. -/
theorem reversal_caught_witness :
    ∃ g1 g2 : Game,
      handleEvents 20 10 0 0 (.EventKey .KeyLeft 'x')
        ⟨⟨[⟨5, 5⟩, ⟨4, 5⟩, ⟨3, 5⟩], Right⟩, ⟨9, 9⟩, 0, 100000000, false⟩ = .ok g1 ∧
      g1.Snake.Direction = Left ∧ move 20 10 0 0 g1 = .ok g2 ∧
      g2.GameOver = true ∧ g2.Snake.Body = [⟨5, 5⟩, ⟨4, 5⟩, ⟨3, 5⟩] ∧
      g2.Food = ⟨9, 9⟩ ∧ g2.Score = 0 ∧ g2.Speed = 100000000 :=
  reversal_caught 20 10 0 0 0 0
    ⟨⟨[⟨5, 5⟩, ⟨4, 5⟩, ⟨3, 5⟩], Right⟩, ⟨9, 9⟩, 0, 100000000, false⟩
    .KeyLeft 'x' Left ⟨5, 5⟩ ⟨4, 5⟩ [⟨3, 5⟩] rfl rfl
    (Or.inr (Or.inr (Or.inl ⟨rfl, rfl⟩))) rfl

/-- C12: consecutive body points are adjacent.  The body produced by
initialize() (on a board of positive size) has every pair of consecutive
segments at Manhattan distance exactly 1; and for every state whose body has
that property and whose direction is one of Up, Down, Left, Right, on every
board, whenever move() returns (it does as soon as the body is not empty) the
body it leaves has the property too, whether the move is ordinary, eats the
food or ends the game. -/
theorem adjacent_invariant :
    (∀ (W H : Int) (rx ry : Nat) (g0 : Game), 0 < W → 0 < H →
      ∃ gi : Game, initializeGame W H rx ry g0 = .ok gi ∧ Adjacent gi.Snake.Body) ∧
    (∀ (W H : Int) (rx ry : Nat) (g : Game),
      Adjacent g.Snake.Body → ValidDirection g.Snake.Direction →
      (∀ g1 : Game, move W H rx ry g = .ok g1 → Adjacent g1.Snake.Body) ∧
      (g.Snake.Body ≠ [] → ∃ g1 : Game, move W H rx ry g = .ok g1)) := by
  constructor
  · intro W H rx ry g0 hW hH
    refine ⟨{ Snake := { Body := [⟨5, 5⟩, ⟨5, 6⟩, ⟨5, 7⟩], Direction := Right },
              Food := ⟨(rx : Int) % W, (ry : Int) % H⟩,
              Score := 0, Speed := 100 * Millisecond, GameOver := false }, ?_, ?_⟩
    · simp [initializeGame, spawnFood_ok W H rx ry _ hW hH]
    · simp [Adjacent, manhattan]
  · intro W H rx ry g hadj hdir
    refine ⟨?_, fun hne => move_returns W H rx ry g (Or.inr hne)⟩
    intro g1 hmove
    rcases move_cases W H rx ry g g1 hmove with ⟨_, rfl⟩ | ⟨head, rest, _, hbody, hc⟩
    · exact hadj
    · rw [hbody] at hadj
      have hnear := manhattan_newHead g.Snake.Direction head hdir
      rcases hc with ⟨_, rfl⟩ | ⟨_, _, _, rfl⟩ | ⟨_, _, _, rfl⟩
      · show Adjacent g.Snake.Body
        rw [hbody]; exact hadj
      · show Adjacent (newHead g.Snake.Direction head :: (head :: rest).dropLast)
        cases rest with
        | nil => trivial
        | cons q rest => exact ⟨hnear, adjacent_dropLast _ hadj⟩
      · exact ⟨hnear, hadj⟩

/-- Witness of C12: initialize on a 20 x 10 board, and one ordinary move Up of
the snake [(5,5),(5,6),(5,7)], which leaves [(5,4),(5,5),(5,6)]. -/
theorem adjacent_invariant_witness :
    (∃ gi : Game, initializeGame 20 10 47 13 ⟨⟨[], Up⟩, ⟨0, 0⟩, 0, 0, true⟩ = .ok gi ∧
      Adjacent gi.Snake.Body) ∧
    Adjacent [(⟨5, 4⟩ : Point), ⟨5, 5⟩, ⟨5, 6⟩] :=
  ⟨adjacent_invariant.1 20 10 47 13 _ (by decide) (by decide),
    (adjacent_invariant.2 20 10 0 0
      ⟨⟨[⟨5, 5⟩, ⟨5, 6⟩, ⟨5, 7⟩], Up⟩, ⟨0, 0⟩, 0, 100000000, false⟩
      (by simp [Adjacent, manhattan]) (Or.inl rfl)).1
      ⟨⟨[⟨5, 4⟩, ⟨5, 5⟩, ⟨5, 6⟩], Up⟩, ⟨0, 0⟩, 0, 100000000, false⟩ rfl⟩

/-- C13: move() never shortens a non-empty body.  For every state with a
non-empty body and every board, move returns, the new length is the old length
or the old length plus 1, and it is the old length plus 1 exactly when the move
ate the food, that is exactly when Score increased (by 1). -/
theorem move_length (W H : Int) (rx ry : Nat) (g : Game)
    (hbody : g.Snake.Body ≠ []) :
    ∃ g1 : Game, move W H rx ry g = .ok g1 ∧
      (g1.Snake.Body.length = g.Snake.Body.length ∨
        g1.Snake.Body.length = g.Snake.Body.length + 1) ∧
      (g1.Snake.Body.length = g.Snake.Body.length + 1 ↔ g1.Score = g.Score + 1) ∧
      (g1.Snake.Body.length = g.Snake.Body.length + 1 ↔ g.Score < g1.Score) ∧
      (g1.Snake.Body.length = g.Snake.Body.length ↔ g1.Score = g.Score) := by
  obtain ⟨g1, hmove⟩ := move_returns W H rx ry g (Or.inr hbody)
  refine ⟨g1, hmove, ?_⟩
  rcases move_cases W H rx ry g g1 hmove with ⟨_, rfl⟩ | ⟨head, rest, _, hb, hc⟩
  · simp
  · rcases hc with ⟨_, rfl⟩ | ⟨_, _, _, rfl⟩ | ⟨_, _, _, rfl⟩
    · simp
    · have hlen : (newHead g.Snake.Direction head :: (head :: rest).dropLast).length =
          g.Snake.Body.length := by
        rw [hb]; cases rest <;> simp
      simp only [hlen]
      simp
    · have hlen : (newHead g.Snake.Direction head :: head :: rest).length =
          g.Snake.Body.length + 1 := by
        rw [hb]; simp
      simp only [hlen]
      simp

/-- Witness of C13: the starting snake eats the food at (6,5) on a 20 x 10
board. -/
theorem move_length_witness :
    ∃ g1 : Game,
      move 20 10 47 13 ⟨⟨[⟨5, 5⟩, ⟨5, 6⟩, ⟨5, 7⟩], Right⟩, ⟨6, 5⟩, 0, 100000000, false⟩
        = .ok g1 ∧
      (g1.Snake.Body.length = 3 ∨ g1.Snake.Body.length = 3 + 1) ∧
      (g1.Snake.Body.length = 3 + 1 ↔ g1.Score = 0 + 1) ∧
      (g1.Snake.Body.length = 3 + 1 ↔ 0 < g1.Score) ∧
      (g1.Snake.Body.length = 3 ↔ g1.Score = 0) :=
  move_length 20 10 47 13
    ⟨⟨[⟨5, 5⟩, ⟨5, 6⟩, ⟨5, 7⟩], Right⟩, ⟨6, 5⟩, 0, 100000000, false⟩ (by decide)

/-- C17: the snake never overlaps itself.  The body produced by initialize() (on
a board of positive size) has pairwise distinct points; and for every state
whose body has pairwise distinct points and whose direction is one of Up, Down,
Left, Right, on every board, whenever move() returns (it does as soon as the
body is not empty) the body it leaves has pairwise distinct points again. -/
theorem nodup_invariant :
    (∀ (W H : Int) (rx ry : Nat) (g0 : Game), 0 < W → 0 < H →
      ∃ gi : Game, initializeGame W H rx ry g0 = .ok gi ∧ gi.Snake.Body.Nodup) ∧
    (∀ (W H : Int) (rx ry : Nat) (g : Game),
      g.Snake.Body.Nodup → ValidDirection g.Snake.Direction →
      (∀ g1 : Game, move W H rx ry g = .ok g1 → g1.Snake.Body.Nodup) ∧
      (g.Snake.Body ≠ [] → ∃ g1 : Game, move W H rx ry g = .ok g1)) := by
  constructor
  · intro W H rx ry g0 hW hH
    refine ⟨{ Snake := { Body := [⟨5, 5⟩, ⟨5, 6⟩, ⟨5, 7⟩], Direction := Right },
              Food := ⟨(rx : Int) % W, (ry : Int) % H⟩,
              Score := 0, Speed := 100 * Millisecond, GameOver := false }, ?_, ?_⟩
    · simp [initializeGame, spawnFood_ok W H rx ry _ hW hH]
    · show ([⟨5, 5⟩, ⟨5, 6⟩, ⟨5, 7⟩] : List Point).Nodup
      decide
  · intro W H rx ry g hnd hdir
    refine ⟨?_, fun hne => move_returns W H rx ry g (Or.inr hne)⟩
    intro g1 hmove
    rcases move_cases W H rx ry g g1 hmove with ⟨_, rfl⟩ | ⟨head, rest, _, hbody, hc⟩
    · exact hnd
    · rw [hbody] at hnd
      have hne : newHead g.Snake.Direction head ≠ head :=
        newHead_ne_head g.Snake.Direction head hdir
      rcases hc with ⟨_, rfl⟩ | ⟨_, hnot, _, rfl⟩ | ⟨_, hnot, _, rfl⟩
      · show g.Snake.Body.Nodup
        rw [hbody]; exact hnd
      · show (newHead g.Snake.Direction head :: (head :: rest).dropLast).Nodup
        have hfresh : newHead g.Snake.Direction head ∉ head :: rest := by
          intro hmem
          rcases List.mem_cons.mp hmem with h | h
          · exact hne h
          · exact hnot h
        exact List.nodup_cons.mpr
          ⟨fun hmem => hfresh (List.mem_of_mem_dropLast hmem),
            hnd.sublist (List.dropLast_sublist _)⟩
      · show (newHead g.Snake.Direction head :: head :: rest).Nodup
        refine List.nodup_cons.mpr ⟨?_, hnd⟩
        intro hmem
        rcases List.mem_cons.mp hmem with h | h
        · exact hne h
        · exact hnot h

/-- Witness of C17: initialize on a 20 x 10 board, and one ordinary move Up of
the snake [(5,5),(5,6),(5,7)], which leaves [(5,4),(5,5),(5,6)]. -/
theorem nodup_invariant_witness :
    (∃ gi : Game, initializeGame 20 10 47 13 ⟨⟨[], Up⟩, ⟨0, 0⟩, 0, 0, true⟩ = .ok gi ∧
      gi.Snake.Body.Nodup) ∧
    [(⟨5, 4⟩ : Point), ⟨5, 5⟩, ⟨5, 6⟩].Nodup :=
  ⟨nodup_invariant.1 20 10 47 13 _ (by decide) (by decide),
    (nodup_invariant.2 20 10 0 0
      ⟨⟨[⟨5, 5⟩, ⟨5, 6⟩, ⟨5, 7⟩], Up⟩, ⟨0, 0⟩, 0, 100000000, false⟩
      (by decide) (Or.inl rfl)).1
      ⟨⟨[⟨5, 4⟩, ⟨5, 5⟩, ⟨5, 6⟩], Up⟩, ⟨0, 0⟩, 0, 100000000, false⟩ rfl⟩

/-- C19: collision takes precedence over food.  In a running game with body
`head :: rest`, if the new head is inside the board, equals Food and also equals
a segment of `Body[1:]`, then move returns with GameOver = true and Score, Speed,
Food and the body (and the direction) unchanged: the food is not eaten. -/
theorem move_collision_before_food (W H : Int) (rx ry : Nat) (g : Game)
    (head nh : Point) (rest : List Point)
    (hrun : g.GameOver = false) (hbody : g.Snake.Body = head :: rest)
    (hnh : newHead g.Snake.Direction head = nh)
    (hin : 0 ≤ nh.X ∧ nh.X < W ∧ 0 ≤ nh.Y ∧ nh.Y < H)
    (_hfood : nh = g.Food) (hself : nh ∈ rest) :
    ∃ g1 : Game, move W H rx ry g = .ok g1 ∧ g1.GameOver = true ∧
      g1.Score = g.Score ∧ g1.Speed = g.Speed ∧ g1.Food = g.Food ∧
      g1.Snake.Body = g.Snake.Body ∧ g1.Snake.Direction = g.Snake.Direction := by
  have hb : outOfBounds W H nh = false := (outOfBounds_eq_false_iff W H nh).mpr hin
  have hs : hitsSegment nh rest = true := (hitsSegment_iff_mem nh rest).mpr hself
  refine ⟨{ g with GameOver := true }, ?_, rfl, rfl, rfl, rfl, rfl, rfl⟩
  simp [move, hrun, hbody, hnh, hb, hs]

/-- Witness of C19: a snake curled in a 2 x 2 square, with the food lying on its
last segment (5,5), moves Left onto it. -/
theorem move_collision_before_food_witness :
    ∃ g1 : Game,
      move 20 10 0 0
        ⟨⟨[⟨6, 5⟩, ⟨6, 6⟩, ⟨5, 6⟩, ⟨5, 5⟩], Left⟩, ⟨5, 5⟩, 1, 95000000, false⟩ = .ok g1 ∧
      g1.GameOver = true ∧ g1.Score = 1 ∧ g1.Speed = 95000000 ∧ g1.Food = ⟨5, 5⟩ ∧
      g1.Snake.Body = [⟨6, 5⟩, ⟨6, 6⟩, ⟨5, 6⟩, ⟨5, 5⟩] ∧ g1.Snake.Direction = Left :=
  move_collision_before_food 20 10 0 0
    ⟨⟨[⟨6, 5⟩, ⟨6, 6⟩, ⟨5, 6⟩, ⟨5, 5⟩], Left⟩, ⟨5, 5⟩, 1, 95000000, false⟩
    ⟨6, 5⟩ ⟨5, 5⟩ [⟨6, 6⟩, ⟨5, 6⟩, ⟨5, 5⟩] rfl rfl rfl (by decide) rfl (by decide)

/-! ## Invariants of the reachable states -/

/-- Induction over the reachable states: a property that holds after every
initialize(), is kept by every move() that returns and does not depend on the
direction holds in every reachable state. -/
theorem reachable_invariant (W H : Int) (P : Game → Prop)
    (hinit : ∀ (g0 : Game) (rx ry : Nat) (gi : Game),
      initializeGame W H rx ry g0 = .ok gi → P gi)
    (hmove : ∀ (rx ry : Nat) (g g1 : Game), P g → move W H rx ry g = .ok g1 → P g1)
    (hdir : ∀ (g : Game) (d : Direction), ValidDirection d → P g →
      P { g with Snake := { g.Snake with Direction := d } })
    (g : Game) (hr : Reachable W H g) : P g := by
  obtain ⟨g0, rx, ry, steps, gi, hi, hrun⟩ := hr
  have hgi : P gi := hinit g0 rx ry gi hi
  clear hi
  induction steps generalizing gi with
  | nil =>
    simp [run] at hrun
    rw [← hrun]; exact hgi
  | cons s rest ih =>
    cases hs : step W H s gi with
    | error e => simp [run, hs] at hrun
    | ok g2 =>
      simp [run, hs] at hrun
      refine ih g2 hrun ?_
      cases s with
      | tick tx ty =>
        cases hm : move W H tx ty gi with
        | error e => simp [step, hm] at hs
        | ok g3 =>
          simp [step, hm] at hs
          rw [← hs]; exact hmove tx ty gi g3 hgi hm
      | input ev tx ty =>
        rcases handleEvents_cases W H tx ty ev gi g2 hs with rfl | ⟨d, hd, rfl⟩ | h
        · exact hgi
        · exact hdir gi d hd hgi
        · exact hinit gi tx ty g2 h

/-- The length of the body after an ordinary move. -/
theorem length_cons_dropLast (nh head : Point) (rest : List Point) :
    (nh :: (head :: rest).dropLast).length = (head :: rest).length := by
  cases rest <;> simp

/-- C14: the tick interval has no floor.  In every state reachable from
initialize() by move() calls and key events, Speed = 100 ms - 5 ms * Score in
exact integer arithmetic; hence Speed is zero when Score = 20 and negative when
Score > 20: no operation clamps it. -/
theorem speed_has_no_floor (W H : Int) (g : Game) (hr : Reachable W H g) :
    g.Speed = 100 * Millisecond - 5 * Millisecond * g.Score ∧
    (g.Score = 20 → g.Speed = 0) ∧ (20 < g.Score → g.Speed < 0) := by
  have hinv : g.Speed = 100 * Millisecond - 5 * Millisecond * g.Score := by
    refine reachable_invariant W H
      (fun g => g.Speed = 100 * Millisecond - 5 * Millisecond * g.Score) ?_ ?_ ?_ g hr
    · intro g0 rx ry gi hi
      obtain ⟨_, _, rfl⟩ := initializeGame_cases W H rx ry g0 gi hi
      simp
    · intro rx ry g g1 hp hmove
      rcases move_cases W H rx ry g g1 hmove with ⟨_, rfl⟩ | ⟨head, rest, _, _, hc⟩
      · exact hp
      · rcases hc with ⟨_, rfl⟩ | ⟨_, _, _, rfl⟩ | ⟨_, _, _, rfl⟩
        · exact hp
        · exact hp
        · show g.Speed - 5 * Millisecond = 100 * Millisecond - 5 * Millisecond * (g.Score + 1)
          rw [hp]; ring
    · intro g d _ hp
      exact hp
  refine ⟨hinv, ?_, ?_⟩
  · intro h20
    rw [hinv, h20]; simp [Millisecond]
  · intro h20
    rw [hinv]; simp only [Millisecond]; omega

/-- C18: in every state reachable from initialize() by move() calls and key
events, the body length equals 3 + Score. -/
theorem length_eq_three_add_score (W H : Int) (g : Game) (hr : Reachable W H g) :
    (g.Snake.Body.length : Int) = 3 + g.Score := by
  refine reachable_invariant W H
    (fun g => (g.Snake.Body.length : Int) = 3 + g.Score) ?_ ?_ ?_ g hr
  · intro g0 rx ry gi hi
    obtain ⟨_, _, rfl⟩ := initializeGame_cases W H rx ry g0 gi hi
    simp
  · intro rx ry g g1 hp hmove
    rcases move_cases W H rx ry g g1 hmove with ⟨_, rfl⟩ | ⟨head, rest, _, hb, hc⟩
    · exact hp
    · rcases hc with ⟨_, rfl⟩ | ⟨_, _, _, rfl⟩ | ⟨_, _, _, rfl⟩
      · exact hp
      · show ((newHead g.Snake.Direction head :: (head :: rest).dropLast).length : Int)
          = 3 + g.Score
        rw [length_cons_dropLast, ← hb]; exact hp
      · show ((newHead g.Snake.Direction head :: head :: rest).length : Int)
          = 3 + (g.Score + 1)
        rw [hb] at hp
        rw [List.length_cons]; push_cast; omega
  · intro g d _ hp
    exact hp

/-- Witness of C14: on a 40 x 10 board the draws put each new food right in front
of the snake; after 21 ticks Score is 21 and Speed is -5 ms. -/
theorem speed_has_no_floor_witness :
    ∃ g : Game, Reachable 40 10 g ∧ g.Score = 21 ∧ g.Speed = -5000000 ∧
      (g.Speed = 100 * Millisecond - 5 * Millisecond * g.Score ∧
        (g.Score = 20 → g.Speed = 0) ∧ (20 < g.Score → g.Speed < 0)) := by
  have hr : Reachable 40 10
      ⟨⟨[⟨26, 5⟩, ⟨25, 5⟩, ⟨24, 5⟩, ⟨23, 5⟩, ⟨22, 5⟩, ⟨21, 5⟩, ⟨20, 5⟩, ⟨19, 5⟩,
          ⟨18, 5⟩, ⟨17, 5⟩, ⟨16, 5⟩, ⟨15, 5⟩, ⟨14, 5⟩, ⟨13, 5⟩, ⟨12, 5⟩, ⟨11, 5⟩,
          ⟨10, 5⟩, ⟨9, 5⟩, ⟨8, 5⟩, ⟨7, 5⟩, ⟨6, 5⟩, ⟨5, 5⟩, ⟨5, 6⟩, ⟨5, 7⟩],
        Right⟩, ⟨27, 5⟩, 21, -5000000, false⟩ :=
    ⟨⟨⟨[], Up⟩, ⟨0, 0⟩, 0, 0, false⟩, 6, 5,
      [.tick 7 5, .tick 8 5, .tick 9 5, .tick 10 5, .tick 11 5, .tick 12 5, .tick 13 5,
       .tick 14 5, .tick 15 5, .tick 16 5, .tick 17 5, .tick 18 5, .tick 19 5, .tick 20 5,
       .tick 21 5, .tick 22 5, .tick 23 5, .tick 24 5, .tick 25 5, .tick 26 5, .tick 27 5],
      ⟨⟨[⟨5, 5⟩, ⟨5, 6⟩, ⟨5, 7⟩], Right⟩, ⟨6, 5⟩, 0, 100000000, false⟩, rfl, rfl⟩
  exact ⟨_, hr, rfl, rfl, speed_has_no_floor 40 10 _ hr⟩

/-- Witness of C18: after initialize and one tick that eats the food at (6,5) on
a 20 x 10 board, the body has 4 segments and Score is 1. -/
theorem length_eq_three_add_score_witness :
    ((⟨⟨[⟨6, 5⟩, ⟨5, 5⟩, ⟨5, 6⟩, ⟨5, 7⟩], Right⟩, ⟨7, 3⟩, 1, 95000000, false⟩ :
        Game).Snake.Body.length : Int) = 3 + 1 :=
  length_eq_three_add_score 20 10
    ⟨⟨[⟨6, 5⟩, ⟨5, 5⟩, ⟨5, 6⟩, ⟨5, 7⟩], Right⟩, ⟨7, 3⟩, 1, 95000000, false⟩
    ⟨⟨⟨[], Up⟩, ⟨0, 0⟩, 0, 0, true⟩, 6, 5, [.tick 47 13],
      ⟨⟨[⟨5, 5⟩, ⟨5, 6⟩, ⟨5, 7⟩], Right⟩, ⟨6, 5⟩, 0, 100000000, false⟩, rfl, rfl⟩

/-- C15: on a fixed board with W >= 6 and H >= 8, in every state reachable from
initialize() by move() calls and key events, Food and every body segment lie
within `[0,W) x [0,H)`. -/
theorem reachable_on_board (W H : Int) (g : Game) (hW : 6 ≤ W) (hH : 8 ≤ H)
    (hr : Reachable W H g) :
    OnBoard W H g.Food ∧ ∀ p ∈ g.Snake.Body, OnBoard W H p := by
  have hfood_ok : ∀ rx ry : Nat, OnBoard W H ⟨(rx : Int) % W, (ry : Int) % H⟩ :=
    fun rx ry => ⟨Int.emod_nonneg _ (by omega), Int.emod_lt_of_pos _ (by omega),
      Int.emod_nonneg _ (by omega), Int.emod_lt_of_pos _ (by omega)⟩
  refine reachable_invariant W H
    (fun g => OnBoard W H g.Food ∧ ∀ p ∈ g.Snake.Body, OnBoard W H p) ?_ ?_ ?_ g hr
  · intro g0 rx ry gi hi
    obtain ⟨_, _, rfl⟩ := initializeGame_cases W H rx ry g0 gi hi
    refine ⟨hfood_ok rx ry, ?_⟩
    intro p hp
    simp only [List.mem_cons, List.mem_singleton, List.not_mem_nil, or_false] at hp
    rcases hp with rfl | rfl | rfl <;> refine ⟨?_, ?_, ?_, ?_⟩ <;> simp <;> omega
  · intro rx ry g g1 hp hmove
    rcases move_cases W H rx ry g g1 hmove with ⟨_, rfl⟩ | ⟨head, rest, _, hb, hc⟩
    · exact hp
    · rcases hc with ⟨_, rfl⟩ | ⟨hin, _, _, rfl⟩ | ⟨hin, _, _, rfl⟩
      · exact hp
      · refine ⟨hp.1, ?_⟩
        intro p hmem
        rcases List.mem_cons.mp hmem with rfl | hmem
        · exact hin
        · exact hp.2 p (by rw [hb]; exact List.mem_of_mem_dropLast hmem)
      · refine ⟨hfood_ok rx ry, ?_⟩
        intro p hmem
        rcases List.mem_cons.mp hmem with rfl | hmem
        · exact hin
        · exact hp.2 p (by rw [hb]; exact hmem)
  · intro g d _ hp
    exact hp

/-- Witness of C15: on the 6 x 8 board, the state after initialize, the Up arrow
and two ticks. -/
theorem reachable_on_board_witness :
    OnBoard 6 8 ⟨1, 1⟩ ∧
    ∀ p ∈ [(⟨5, 3⟩ : Point), ⟨5, 4⟩, ⟨5, 5⟩], OnBoard 6 8 p :=
  reachable_on_board 6 8
    ⟨⟨[⟨5, 3⟩, ⟨5, 4⟩, ⟨5, 5⟩], Up⟩, ⟨1, 1⟩, 0, 100000000, false⟩
    (by decide) (by decide)
    ⟨⟨⟨[], Up⟩, ⟨0, 0⟩, 0, 0, true⟩, 1, 1,
      [.input (.EventKey .KeyUp 'x') 0 0, .tick 0 0, .tick 0 0],
      ⟨⟨[⟨5, 5⟩, ⟨5, 6⟩, ⟨5, 7⟩], Right⟩, ⟨1, 1⟩, 0, 100000000, false⟩, rfl, rfl⟩

/-- C16: spawnFood() does not exclude snake cells.  On every board with W >= 6
and H >= 8, right after initialize() (from any prior state, with any draws), the
call spawnFood() with the draw (5,5) returns with Food = (5,5), which is the
head of the snake. -/
theorem spawnFood_on_snake (W H : Int) (rx ry : Nat) (g0 : Game)
    (hW : 6 ≤ W) (hH : 8 ≤ H) :
    ∃ gi g1 : Game, initializeGame W H rx ry g0 = .ok gi ∧
      spawnFood W H 5 5 gi = .ok g1 ∧ g1.Food = ⟨5, 5⟩ ∧
      g1.Snake.Body = [⟨5, 5⟩, ⟨5, 6⟩, ⟨5, 7⟩] ∧ g1.Food ∈ g1.Snake.Body := by
  have h5W : ((5 : Nat) : Int) % W = 5 := Int.emod_eq_of_lt (by decide) (by omega)
  have h5H : ((5 : Nat) : Int) % H = 5 := Int.emod_eq_of_lt (by decide) (by omega)
  refine ⟨{ Snake := { Body := [⟨5, 5⟩, ⟨5, 6⟩, ⟨5, 7⟩], Direction := Right },
            Food := ⟨(rx : Int) % W, (ry : Int) % H⟩,
            Score := 0, Speed := 100 * Millisecond, GameOver := false },
    { Snake := { Body := [⟨5, 5⟩, ⟨5, 6⟩, ⟨5, 7⟩], Direction := Right },
      Food := ⟨5, 5⟩, Score := 0, Speed := 100 * Millisecond, GameOver := false },
    ?_, ?_, rfl, rfl, ?_⟩
  · simp [initializeGame, spawnFood_ok W H rx ry _ (by omega : 0 < W) (by omega : 0 < H)]
  · rw [spawnFood_ok W H 5 5 _ (by omega : 0 < W) (by omega : 0 < H), h5W, h5H]
  · exact List.mem_cons_self _ _

/-- Witness of C16: the 6 x 8 board. -/
theorem spawnFood_on_snake_witness :
    ∃ gi g1 : Game, initializeGame 6 8 0 0 ⟨⟨[], Up⟩, ⟨0, 0⟩, 0, 0, true⟩ = .ok gi ∧
      spawnFood 6 8 5 5 gi = .ok g1 ∧ g1.Food = ⟨5, 5⟩ ∧
      g1.Snake.Body = [⟨5, 5⟩, ⟨5, 6⟩, ⟨5, 7⟩] ∧ g1.Food ∈ g1.Snake.Body :=
  spawnFood_on_snake 6 8 0 0 _ (by decide) (by decide)

/-- C20: the unguarded accesses `Body[0]`, `Body[1:]` and `Body[:len-1]` of move()
never fail in play.  In every state reachable from initialize() by move() calls
and key events, the body has at least 3 segments, so move, with any draws,
returns: it does not take the out-of-range branch. -/
theorem move_never_out_of_range (W H : Int) (g : Game) (hr : Reachable W H g) :
    3 ≤ g.Snake.Body.length ∧
    ∀ rx ry : Nat, (∃ g1 : Game, move W H rx ry g = .ok g1) ∧
      move W H rx ry g ≠ .error .indexOutOfRange := by
  have hlen : 3 ≤ g.Snake.Body.length := by
    refine reachable_invariant W H (fun g => 3 ≤ g.Snake.Body.length) ?_ ?_ ?_ g hr
    · intro g0 rx ry gi hi
      obtain ⟨_, _, rfl⟩ := initializeGame_cases W H rx ry g0 gi hi
      simp
    · intro rx ry g g1 hp hmove
      rcases move_cases W H rx ry g g1 hmove with ⟨_, rfl⟩ | ⟨head, rest, _, hb, hc⟩
      · exact hp
      · rcases hc with ⟨_, rfl⟩ | ⟨_, _, _, rfl⟩ | ⟨_, _, _, rfl⟩
        · exact hp
        · show 3 ≤ (newHead g.Snake.Direction head :: (head :: rest).dropLast).length
          rw [length_cons_dropLast, ← hb]; exact hp
        · show 3 ≤ (newHead g.Snake.Direction head :: head :: rest).length
          rw [hb] at hp
          rw [List.length_cons]; omega
    · intro g d _ hp
      exact hp
  refine ⟨hlen, fun rx ry => ?_⟩
  have hne : g.Snake.Body ≠ [] := by
    intro h
    rw [h] at hlen
    simp at hlen
  obtain ⟨g1, h1⟩ := move_returns W H rx ry g (Or.inr hne)
  exact ⟨⟨g1, h1⟩, by rw [h1]; simp⟩

/-- Witness of C20: the state after initialize, the Up arrow and two ticks on a
20 x 10 board. -/
theorem move_never_out_of_range_witness :
    3 ≤ [(⟨5, 3⟩ : Point), ⟨5, 4⟩, ⟨5, 5⟩].length ∧
    ∀ rx ry : Nat,
      (∃ g1 : Game, move 20 10 rx ry
        ⟨⟨[⟨5, 3⟩, ⟨5, 4⟩, ⟨5, 5⟩], Up⟩, ⟨1, 1⟩, 0, 100000000, false⟩ = .ok g1) ∧
      move 20 10 rx ry ⟨⟨[⟨5, 3⟩, ⟨5, 4⟩, ⟨5, 5⟩], Up⟩, ⟨1, 1⟩, 0, 100000000, false⟩
        ≠ .error .indexOutOfRange :=
  move_never_out_of_range 20 10
    ⟨⟨[⟨5, 3⟩, ⟨5, 4⟩, ⟨5, 5⟩], Up⟩, ⟨1, 1⟩, 0, 100000000, false⟩
    ⟨⟨⟨[], Up⟩, ⟨0, 0⟩, 0, 0, true⟩, 1, 1,
      [.input (.EventKey .KeyUp 'x') 0 0, .tick 0 0, .tick 0 0],
      ⟨⟨[⟨5, 5⟩, ⟨5, 6⟩, ⟨5, 7⟩], Right⟩, ⟨1, 1⟩, 0, 100000000, false⟩, rfl, rfl⟩

end SnakeGame
